import Mathlib

/-!
Shallow embedding of the team-board access-control layer of the
mcp-server-azure-devops repository: configuration parsing
(`parseAllowedTeamBoards`), team-name/ID resolution with a cache
(`getTeamNameById`, `getAllowedTeamIds`), area-path decomposition
(`extractTeamNameFromAreaPath`), the access decision
(`isTeamAllowed`, `validateWorkItemTeamAccess`, `validateTeamBoardAccess`,
`fetchAndValidateWorkItem`) and the work-items request router
(`handleWorkItemsRequest` from features/search/search-work-items/feature.ts).

The network (team lists, work items) is modelled by an explicit environment;
the module-level mutable team cache is threaded explicitly; every call to the
external work-tracking client is recorded in an action log so that ordering
and absence-of-mutation properties can be stated.  Thrown
`AzureDevOpsValidationError`s are modelled as an inductive error type whose
constructors carry the data interpolated into the corresponding message, one
constructor per distinct throw site that the claims distinguish.
-/

namespace AdoMcp

/-- ASCII lower-casing of one character, the fragment of JavaScript
`toLowerCase` exercised by the code (team names are compared after
lower-casing). -/
def lowerChar (c : Char) : Char :=
  if 'A' ≤ c ∧ c ≤ 'Z' then Char.ofNat (c.toNat + 32) else c

/-- Lower-case a string character-wise (embedding of `s.toLowerCase()`). -/
def lowerStr (s : String) : String :=
  ⟨s.data.map lowerChar⟩

/-- ASCII whitespace recognised by `trim`. -/
def isWS (c : Char) : Bool :=
  c = ' ' ∨ c = '\t' ∨ c = '\n' ∨ c = '\r'

/-- Trim whitespace from both ends of a character list. -/
def trimChars (l : List Char) : List Char :=
  ((l.dropWhile isWS).reverse.dropWhile isWS).reverse

/-- Embedding of JavaScript `s.trim()`. -/
def trimStr (s : String) : String :=
  ⟨trimChars s.data⟩

/-- Split a character list on a separator character, JavaScript
`String.prototype.split` semantics: the empty list yields `[[]]`, separators
at the ends yield empty segments. -/
def splitOnChar (c : Char) : List Char → List (List Char)
  | [] => [[]]
  | x :: xs =>
    match splitOnChar c xs with
    | [] => if x = c then [[], []] else [[x]]
    | y :: ys => if x = c then [] :: y :: ys else (x :: y) :: ys

/-- Lookup in a JavaScript object used as a record: first (unique) key match. -/
def recordGet {α : Type} (m : List (String × α)) (k : String) : Option α :=
  match m with
  | [] => none
  | (k', v) :: rest => if k' = k then some v else recordGet rest k

/-- Assignment `m[k] = v` on a JavaScript object used as a record: an existing
key keeps its position and gets the new value, a new key is appended. -/
def recordSet {α : Type} (m : List (String × α)) (k : String) (v : α) :
    List (String × α) :=
  match m with
  | [] => [(k, v)]
  | (k', v') :: rest =>
    if k' = k then (k, v) :: rest else (k', v') :: recordSet rest k v

/-- A team as returned by `coreApi.getTeams`; the source checks the `name`
and `id` fields for truthiness, which for strings means non-emptiness, so
both are plain strings here and the empty string plays the falsy role. -/
structure Team where
  id : String
  name : String
deriving DecidableEq, Repr

/-- The policy-relevant view of a work item: its id and the
`System.TeamId` / `System.AreaPath` fields (absent or present). -/
structure WorkItem where
  id : Nat
  teamId : Option String
  areaPath : Option String
deriving DecidableEq, Repr

/-- Per-project cache entry: lowercase team name to team id, in insertion
order (`Record<string, string>`). -/
abbrev ProjectCache := List (String × String)

/-- The module-level `teamCache`: project id to per-project entry. -/
abbrev TeamCache := List (String × ProjectCache)

/-- Configuration: the `allowedTeamBoards` setting (absent or a raw string). -/
structure Config where
  allowedTeamBoards : Option String
deriving DecidableEq, Repr

/-- The external world: team list per project (`getTeams`) and work items by
id (`getWorkItem`, `none` meaning not found). -/
structure Env where
  teams : String → List Team
  workItems : Nat → Option WorkItem

/-- One recorded call to the external work-tracking client. -/
inductive Action where
  | fetchTeams (projectId : String)
  | getWorkItem (id : Nat)
  | listWorkItems (projectId : String) (teamId : Option String)
      (wiql : Option String)
  | createWorkItem (projectId : String) (areaPath : Option String)
  | updateWorkItem (id : Nat) (areaPath : Option String)
  | linkWorkItems (sourceId targetId : Nat)
deriving DecidableEq, Repr

/-- Whether an action mutates state on the service side. -/
def Action.isMutation : Action → Bool
  | .createWorkItem _ _ => true
  | .updateWorkItem _ _ => true
  | .linkWorkItems _ _ => true
  | _ => false

/-- The validation errors thrown by the access-control layer; each
constructor corresponds to one throw site and carries the data interpolated
into that site's message. -/
inductive VError where
  | noBoardsConfigured
  | teamIdNotFoundForItem (workItemId : Nat) (teamId projectId : String)
  | noTeamOrAreaPath (workItemId : Nat)
  | cannotExtractTeam (workItemId : Nat) (areaPath : String)
  | accessDeniedForItem (workItemId : Nat) (teamName : String)
      (allowed : List String)
  | teamIdNotFound (teamId projectId : String)
  | accessDenied (teamName : String) (allowed : List String)
  | teamsNotFound (projectId : String) (notFound available : List String)
  | ambiguousCreation (allowed : List String)
  | workItemNotFound (id : Nat)
deriving DecidableEq, Repr

/-- Embedding of `parseAllowedTeamBoards`: `null` on an absent, empty or
blank value, otherwise the comma-separated tokens, trimmed, empty tokens
dropped. -/
def parseAllowedTeamBoards (allowedTeamBoards : Option String) :
    Option (List String) :=
  match allowedTeamBoards with
  | none => none
  | some s =>
    if trimStr s = "" then none
    else
      some ((((splitOnChar ',' s.data).map
        (fun t => (⟨trimChars t⟩ : String))).filter (fun t => t ≠ "")))

/-- Embedding of `isTeamAllowed`: `false` on a `null` or empty allow-list,
otherwise case-insensitive membership. -/
def isTeamAllowed (allowedTeamBoards : Option (List String))
    (teamName : String) : Bool :=
  match allowedTeamBoards with
  | none => false
  | some l =>
    if l.isEmpty then false
    else l.any (fun allowedTeam => lowerStr allowedTeam == lowerStr teamName)

/-- Reverse lookup of a team id in a per-project cache entry, in the
`Object.entries` iteration order: the first name whose id matches. -/
def cacheLookupById (pc : ProjectCache) (teamId : String) : Option String :=
  match pc with
  | [] => none
  | (n, i) :: rest => if i = teamId then some n else cacheLookupById rest teamId

/-- The cache-consultation step of `getTeamNameById`: the reverse lookup of
the id in the project's entry, when that entry exists. -/
def cacheLookup (cache : TeamCache) (projectId teamId : String) :
    Option String :=
  match recordGet cache projectId with
  | some pc => cacheLookupById pc teamId
  | none => none

/-- Result of `getTeamNameById`: the resolved name (or `null`), the cache
after the call and the log of external calls made. -/
structure ResolveResult where
  name : Option String
  cache : TeamCache
  log : List Action
deriving DecidableEq, Repr

/-- Embedding of `getTeamNameById`: consult the cache; on a miss fetch the
full team list, and if the id is found on a team with non-empty name and id,
record that one team in the project's cache entry and return its name. -/
def getTeamNameById (env : Env) (cache : TeamCache)
    (projectId teamId : String) : ResolveResult :=
  match cacheLookup cache projectId teamId with
  | some n => ⟨some n, cache, []⟩
  | none =>
    let teams := env.teams projectId
    match teams.find? (fun t => t.id = teamId) with
    | some t =>
      if t.name ≠ "" ∧ t.id ≠ "" then
        let pc := (recordGet cache projectId).getD []
        ⟨some t.name,
          recordSet cache projectId (recordSet pc (lowerStr t.name) t.id),
          [Action.fetchTeams projectId]⟩
      else ⟨none, cache, [Action.fetchTeams projectId]⟩
    | none => ⟨none, cache, [Action.fetchTeams projectId]⟩

deriving instance DecidableEq for Except

/-- Validity check the source applies to each fetched team before using it:
`team.name && team.id` (non-empty strings). -/
def teamValid (t : Team) : Bool :=
  t.name ≠ "" && t.id ≠ ""

/-- The `teamMap` loop of `getAllowedTeamIds`: lowercase name to id, built
by assignment in fetch order (so a later duplicate lowercase name wins). -/
def buildTeamMapAcc (acc : List (String × String)) :
    List Team → List (String × String)
  | [] => acc
  | t :: rest =>
    if teamValid t then
      buildTeamMapAcc (recordSet acc (lowerStr t.name) t.id) rest
    else buildTeamMapAcc acc rest

/-- The name-to-id map built from the project's full team list. -/
def buildTeamMap (teams : List Team) : List (String × String) :=
  buildTeamMapAcc [] teams

/-- The cache side of the same loop: every valid fetched team is recorded in
the project's cache entry. -/
def cacheAddTeams (cache : TeamCache) (projectId : String) :
    List Team → TeamCache
  | [] => cache
  | t :: rest =>
    if teamValid t then
      let pc := (recordGet cache projectId).getD []
      cacheAddTeams
        (recordSet cache projectId (recordSet pc (lowerStr t.name) t.id))
        projectId rest
    else cacheAddTeams cache projectId rest

/-- The resolution loop of `getAllowedTeamIds`: for each requested name in
order, either record its id in the result or append it to `notFound`. -/
def resolveNamesAcc (tm : List (String × String))
    (acc : List (String × String)) (nf : List String) :
    List String → List (String × String) × List String
  | [] => (acc, nf)
  | n :: rest =>
    match recordGet tm (lowerStr n) with
    | some id => resolveNamesAcc tm (recordSet acc n id) nf rest
    | none => resolveNamesAcc tm acc (nf ++ [n]) rest

/-- The name shown for a team in the not-found diagnostic:
`t.name || 'Unknown'`. -/
def displayName (t : Team) : String :=
  if t.name = "" then "Unknown" else t.name

/-- Result of `getAllowedTeamIds`. -/
structure TeamsResult where
  res : Except VError (List (String × String))
  cache : TeamCache
  log : List Action
deriving DecidableEq, Repr

/-- Embedding of `getAllowedTeamIds`: fetch the full team list, build the
case-insensitive name-to-id map (caching every valid team), resolve every
requested name, and either return the full mapping or fail with one error
listing all unmatched names and the names of all teams that exist. -/
def getAllowedTeamIds (env : Env) (cache : TeamCache) (projectId : String)
    (allowedTeamNames : List String) : TeamsResult :=
  let allTeams := env.teams projectId
  let tm := buildTeamMap allTeams
  let cache' := cacheAddTeams cache projectId allTeams
  let rn := resolveNamesAcc tm [] [] allowedTeamNames
  if rn.2.isEmpty then ⟨.ok rn.1, cache', [Action.fetchTeams projectId]⟩
  else
    ⟨.error (.teamsNotFound projectId rn.2 (allTeams.map displayName)),
      cache', [Action.fetchTeams projectId]⟩

/-- Embedding of `getWorkItemTeamId`: the `System.TeamId` field when it is a
truthy (non-empty) string. -/
def getWorkItemTeamId (w : WorkItem) : Option String :=
  match w.teamId with
  | some s => if s = "" then none else some s
  | none => none

/-- Embedding of `getWorkItemAreaPath`: the `System.AreaPath` field when it
is a truthy (non-empty) string. -/
def getWorkItemAreaPath (w : WorkItem) : Option String :=
  match w.areaPath with
  | some s => if s = "" then none else some s
  | none => none

/-- Embedding of `extractTeamNameFromAreaPath`: strip a leading
`projectId\` prefix when present, split on the backslash, and return the
first segment when it is non-empty, `null` otherwise. -/
def extractTeamNameFromAreaPath (areaPath projectId : String) :
    Option String :=
  let ap := areaPath.data
  let pj := projectId.data ++ ['\\']
  let rest := if pj.isPrefixOf ap then ap.drop pj.length else ap
  match splitOnChar '\\' rest with
  | [] => none
  | s :: _ => if s = [] then none else some ⟨s⟩

/-- Result of a validation routine: success or a thrown error, the cache
after the call, and the external calls made. -/
structure ValidateResult where
  res : Except VError Unit
  cache : TeamCache
  log : List Action
deriving DecidableEq, Repr

/-- The identity-resolution step of `validateWorkItemTeamAccess`: prefer the
`System.TeamId` field (resolved through the cache), fall back to area-path
decomposition, and fail with the site-specific error otherwise. -/
def resolveWorkItemTeamName (env : Env) (cache : TeamCache)
    (projectId : String) (w : WorkItem) :
    Except VError String × TeamCache × List Action :=
  match getWorkItemTeamId w with
  | some tid =>
    let r := getTeamNameById env cache projectId tid
    match r.name with
    | none => (.error (.teamIdNotFoundForItem w.id tid projectId), r.cache, r.log)
    | some teamName => (.ok teamName, r.cache, r.log)
  | none =>
    match getWorkItemAreaPath w with
    | none => (.error (.noTeamOrAreaPath w.id), cache, [])
    | some ap =>
      match extractTeamNameFromAreaPath ap projectId with
      | none => (.error (.cannotExtractTeam w.id ap), cache, [])
      | some teamName => (.ok teamName, cache, [])

/-- Embedding of `validateWorkItemTeamAccess`: deny when no allow-list is
configured, resolve the item's team affiliation, and check it against the
allow-list. -/
def validateWorkItemTeamAccess (config : Config) (env : Env)
    (cache : TeamCache) (projectId : String) (w : WorkItem) :
    ValidateResult :=
  match parseAllowedTeamBoards config.allowedTeamBoards with
  | none => ⟨.error .noBoardsConfigured, cache, []⟩
  | some allowed =>
    if allowed.isEmpty then ⟨.error .noBoardsConfigured, cache, []⟩
    else
      match resolveWorkItemTeamName env cache projectId w with
      | (.error e, c, lg) => ⟨.error e, c, lg⟩
      | (.ok teamName, c, lg) =>
        if isTeamAllowed (some allowed) teamName then ⟨.ok (), c, lg⟩
        else ⟨.error (.accessDeniedForItem w.id teamName allowed), c, lg⟩

/-- Embedding of `validateTeamBoardAccess`: deny when no allow-list is
configured; when a (truthy) team id is supplied, resolve it and check it
against the allow-list; otherwise let the operation proceed. -/
def validateTeamBoardAccess (config : Config) (env : Env)
    (cache : TeamCache) (projectId : String) (teamId : Option String) :
    ValidateResult :=
  match parseAllowedTeamBoards config.allowedTeamBoards with
  | none => ⟨.error .noBoardsConfigured, cache, []⟩
  | some allowed =>
    if allowed.isEmpty then ⟨.error .noBoardsConfigured, cache, []⟩
    else
      match teamId with
      | none => ⟨.ok (), cache, []⟩
      | some tid =>
        if tid = "" then ⟨.ok (), cache, []⟩
        else
          let r := getTeamNameById env cache projectId tid
          match r.name with
          | none => ⟨.error (.teamIdNotFound tid projectId), r.cache, r.log⟩
          | some teamName =>
            if isTeamAllowed (some allowed) teamName then ⟨.ok (), r.cache, r.log⟩
            else ⟨.error (.accessDenied teamName allowed), r.cache, r.log⟩

/-- Result of `fetchAndValidateWorkItem`. -/
structure FetchResult where
  res : Except VError WorkItem
  cache : TeamCache
  log : List Action
deriving DecidableEq, Repr

/-- Embedding of `fetchAndValidateWorkItem`: fetch the work item, fail when
it does not exist, validate its team affiliation, and return it only when
the validation succeeds. -/
def fetchAndValidateWorkItem (config : Config) (env : Env)
    (cache : TeamCache) (projectId : String) (workItemId : Nat) :
    FetchResult :=
  match env.workItems workItemId with
  | none =>
    ⟨.error (.workItemNotFound workItemId), cache, [Action.getWorkItem workItemId]⟩
  | some w =>
    let v := validateWorkItemTeamAccess config env cache projectId w
    match v.res with
    | .error e => ⟨.error e, v.cache, Action.getWorkItem workItemId :: v.log⟩
    | .ok _ => ⟨.ok w, v.cache, Action.getWorkItem workItemId :: v.log⟩

/-- JavaScript truthiness filter on an optional string argument: an empty
string counts as absent. -/
def truthyOpt : Option String → Option String
  | some s => if s = "" then none else some s
  | none => none

/-- `Array.prototype.join` on a list of strings. -/
def joinSep (sep : String) : List String → String
  | [] => ""
  | [x] => x
  | x :: y :: ys => x ++ sep ++ joinSep sep (y :: ys)

/-- A parsed inbound work-items request (the argument fields the
access-control layer inspects). -/
inductive WIRequest where
  | get (workItemId : Nat)
  | list (projectId : Option String) (teamId : Option String)
      (wiql : Option String)
  | create (projectId : Option String) (areaPath : Option String)
  | update (workItemId : Nat) (areaPath : Option String)
  | link (projectId : Option String) (sourceWorkItemId targetWorkItemId : Nat)
deriving DecidableEq, Repr

/-- The successful outcome of a routed operation. -/
inductive Response where
  | item (w : WorkItem)
  | items
  | created
  | updated
  | linked
deriving DecidableEq, Repr

/-- Result of the request router. -/
structure HandlerResult where
  res : Except VError Response
  cache : TeamCache
  log : List Action
deriving DecidableEq, Repr

/-- The area-path WIQL condition built for one allowed team. -/
def areaPathCondition (projectId teamName : String) : String :=
  "[System.AreaPath] UNDER \x27" ++ projectId ++ "\\" ++ teamName ++ "\x27"

/-- The WIQL query built for a listing scoped to the allowed teams. -/
def scopedWiql (projectId : String) (conds : List String) : String :=
  "SELECT [System.Id] FROM WorkItems WHERE [System.TeamProject] = \x27" ++
    projectId ++ "\x27 AND (" ++ joinSep " OR " conds ++
    ") ORDER BY [System.Id]"

/-- The per-operation dispatch of `handleWorkItemsRequest` (the `switch`
statement), run after the up-front team-board access check. -/
def handleSwitch (env : Env) (defaultProject : String) (req : WIRequest)
    (config : Option Config) (cache : TeamCache) : HandlerResult :=
  match req with
  | .get workItemId =>
    match config with
    | some cfg =>
      let f := fetchAndValidateWorkItem cfg env cache defaultProject workItemId
      match f.res with
      | .error e => ⟨.error e, f.cache, f.log⟩
      | .ok w => ⟨.ok (.item w), f.cache, f.log⟩
    | none =>
      match env.workItems workItemId with
      | some w => ⟨.ok (.item w), cache, [Action.getWorkItem workItemId]⟩
      | none =>
        ⟨.error (.workItemNotFound workItemId), cache,
          [Action.getWorkItem workItemId]⟩
  | .list pidOpt tidOpt wiqlOpt =>
    let projectId := pidOpt.getD defaultProject
    match config with
    | some cfg =>
      match parseAllowedTeamBoards cfg.allowedTeamBoards with
      | none => ⟨.error .noBoardsConfigured, cache, []⟩
      | some allowed =>
        if allowed.isEmpty then ⟨.error .noBoardsConfigured, cache, []⟩
        else
          match truthyOpt tidOpt with
          | some tid =>
            let v := validateTeamBoardAccess cfg env cache projectId (some tid)
            match v.res with
            | .error e => ⟨.error e, v.cache, v.log⟩
            | .ok _ =>
              ⟨.ok .items, v.cache,
                v.log ++ [Action.listWorkItems projectId (some tid) wiqlOpt]⟩
          | none =>
            let t := getAllowedTeamIds env cache projectId allowed
            match t.res with
            | .error e => ⟨.error e, t.cache, t.log⟩
            | .ok teamsData =>
              let conds := teamsData.map
                (fun p => areaPathCondition projectId p.1)
              let wiql := scopedWiql projectId conds
              ⟨.ok .items, t.cache,
                t.log ++ [Action.listWorkItems projectId none (some wiql)]⟩
    | none =>
      ⟨.ok .items, cache, [Action.listWorkItems projectId tidOpt wiqlOpt]⟩
  | .create pidOpt areaPathOpt =>
    let projectId := pidOpt.getD defaultProject
    match config with
    | some cfg =>
      match truthyOpt areaPathOpt with
      | some _ =>
        ⟨.ok .created, cache, [Action.createWorkItem projectId areaPathOpt]⟩
      | none =>
        match parseAllowedTeamBoards cfg.allowedTeamBoards with
        | some [teamName] =>
          let eff := some (projectId ++ "\\" ++ teamName)
          ⟨.ok .created, cache, [Action.createWorkItem projectId eff]⟩
        | some (t₁ :: t₂ :: rest) =>
          ⟨.error (.ambiguousCreation (t₁ :: t₂ :: rest)), cache, []⟩
        | _ => ⟨.error .noBoardsConfigured, cache, []⟩
    | none =>
      ⟨.ok .created, cache, [Action.createWorkItem projectId areaPathOpt]⟩
  | .update workItemId areaPathOpt =>
    match config with
    | some cfg =>
      let f := fetchAndValidateWorkItem cfg env cache defaultProject workItemId
      match f.res with
      | .error e => ⟨.error e, f.cache, f.log⟩
      | .ok _ =>
        ⟨.ok .updated, f.cache,
          f.log ++ [Action.updateWorkItem workItemId areaPathOpt]⟩
    | none =>
      ⟨.ok .updated, cache, [Action.updateWorkItem workItemId areaPathOpt]⟩
  | .link pidOpt sourceId targetId =>
    let projectId := pidOpt.getD defaultProject
    match config with
    | some cfg =>
      let f1 := fetchAndValidateWorkItem cfg env cache projectId sourceId
      match f1.res with
      | .error e => ⟨.error e, f1.cache, f1.log⟩
      | .ok _ =>
        let f2 := fetchAndValidateWorkItem cfg env f1.cache projectId targetId
        match f2.res with
        | .error e => ⟨.error e, f2.cache, f1.log ++ f2.log⟩
        | .ok _ =>
          ⟨.ok .linked, f2.cache,
            f1.log ++ f2.log ++ [Action.linkWorkItems sourceId targetId]⟩
    | none =>
      ⟨.ok .linked, cache, [Action.linkWorkItems sourceId targetId]⟩

/-- Embedding of `handleWorkItemsRequest`: when a configuration is present,
first run the team-board access check against the default project (which
fails closed on an absent or empty allow-list), then dispatch the
operation; with no configuration, dispatch directly (open mode). -/
def handleWorkItemsRequest (env : Env) (defaultProject : String)
    (req : WIRequest) (config : Option Config) (cache : TeamCache) :
    HandlerResult :=
  match config with
  | some cfg =>
    let v0 := validateTeamBoardAccess cfg env cache defaultProject none
    match v0.res with
    | .error e => ⟨.error e, v0.cache, v0.log⟩
    | .ok _ =>
      let r := handleSwitch env defaultProject req (some cfg) v0.cache
      ⟨r.res, r.cache, v0.log ++ r.log⟩
  | none => handleSwitch env defaultProject req none cache

/-! ## Helper lemmas -/

theorem recordGet_recordSet_self {α : Type} (m : List (String × α))
    (k : String) (v : α) : recordGet (recordSet m k v) k = some v := by
  induction m with
  | nil => simp [recordSet, recordGet]
  | cons p rest ih =>
    obtain ⟨k', v'⟩ := p
    by_cases h : k' = k
    · simp [recordSet, recordGet, h]
    · simp [recordSet, recordGet, h, ih]

theorem recordGet_recordSet_of_ne {α : Type} (m : List (String × α))
    (k k' : String) (v : α) (h : k ≠ k') :
    recordGet (recordSet m k v) k' = recordGet m k' := by
  induction m with
  | nil => simp [recordSet, recordGet, h]
  | cons p rest ih =>
    obtain ⟨k₀, v₀⟩ := p
    by_cases h₀ : k₀ = k
    · subst h₀; simp [recordSet, recordGet, h]
    · simp [recordSet, recordGet, h₀, ih]

theorem recordGet_recordSet_isSome {α : Type} (m : List (String × α))
    (k k' : String) (v : α) (h : (recordGet m k').isSome) :
    (recordGet (recordSet m k v) k').isSome := by
  by_cases hk : k = k'
  · subst hk; simp [recordGet_recordSet_self]
  · rw [recordGet_recordSet_of_ne m k k' v hk]; exact h

theorem list_isEmpty_false_of_ne_nil {α : Type} {l : List α} (h : l ≠ []) :
    l.isEmpty = false := by
  cases l with
  | nil => exact absurd rfl h
  | cons a t => rfl

/-- The up-front access check with no team id succeeds exactly when the
allow-list parses non-empty, touching neither the cache nor the network. -/
theorem validateTeamBoardAccess_none_ok (cfg : Config) (env : Env)
    (cache : TeamCache) (pid : String) (l : List String)
    (h : parseAllowedTeamBoards cfg.allowedTeamBoards = some l) (hl : l ≠ []) :
    validateTeamBoardAccess cfg env cache pid none = ⟨.ok (), cache, []⟩ := by
  unfold validateTeamBoardAccess
  rw [h]
  simp [list_isEmpty_false_of_ne_nil hl]

/-- The up-front access check fails closed on a `null` or empty allow-list. -/
theorem validateTeamBoardAccess_none_denied (cfg : Config) (env : Env)
    (cache : TeamCache) (pid : String) (tid : Option String)
    (h : parseAllowedTeamBoards cfg.allowedTeamBoards = none ∨
      parseAllowedTeamBoards cfg.allowedTeamBoards = some []) :
    validateTeamBoardAccess cfg env cache pid tid
      = ⟨.error .noBoardsConfigured, cache, []⟩ := by
  unfold validateTeamBoardAccess
  rcases h with h | h <;> simp [h, List.isEmpty]

/-! ## C1: empty or absent allow-list denies every operation -/

/-- C1: for every configuration whose `allowedTeamBoards` value is absent,
blank, or parses to an empty list, every routed work-item operation (get,
list, create, update, link) fails with the fail-closed validation error
before any external call, returning no data. -/
theorem C1_empty_allowlist_denies_all (env : Env) (dp : String)
    (req : WIRequest) (cache : TeamCache) (s : Option String)
    (h : parseAllowedTeamBoards s = none ∨ parseAllowedTeamBoards s = some []) :
    (handleWorkItemsRequest env dp req (some ⟨s⟩) cache).res
      = .error VError.noBoardsConfigured ∧
    (handleWorkItemsRequest env dp req (some ⟨s⟩) cache).log = [] := by
  have hv := validateTeamBoardAccess_none_denied ⟨s⟩ env cache dp none h
  simp [handleWorkItemsRequest, hv]

/-- Witness for C1: the blank configuration `" "` parses to `null` and a
get request under it is denied with no data and no external calls. -/
theorem C1_empty_allowlist_denies_all_witness :
    (parseAllowedTeamBoards (some " ") = none ∨
      parseAllowedTeamBoards (some " ") = some []) ∧
    ((handleWorkItemsRequest ⟨fun _ => [], fun _ => none⟩ "X" (.get 1)
        (some ⟨some " "⟩) []).res = .error VError.noBoardsConfigured ∧
      (handleWorkItemsRequest ⟨fun _ => [], fun _ => none⟩ "X" (.get 1)
        (some ⟨some " "⟩) []).log = []) :=
  ⟨Or.inl (by decide),
    C1_empty_allowlist_denies_all _ "X" (.get 1) [] (some " ")
      (Or.inl (by decide))⟩

/-! ## C2: area path equal to the project name alone -/

/-- Splitting a list that does not contain the separator yields the list as
its single segment. -/
theorem splitOnChar_no_sep (c : Char) (l : List Char) (h : c ∉ l)
    (hne : l ≠ []) : splitOnChar c l = [l] := by
  induction l with
  | nil => exact absurd rfl hne
  | cons x xs ih =>
    have hx : x ≠ c := fun hxc => h (hxc ▸ List.mem_cons_self x xs)
    have hxs : c ∉ xs := fun hc => h (List.mem_cons_of_mem x hc)
    cases hxse : xs with
    | nil => simp [splitOnChar, hx]
    | cons y ys =>
      subst hxse
      have hrec := ih hxs (by simp)
      simp only [splitOnChar] at hrec ⊢
      rw [hrec]
      simp [hx]

/-- A strictly longer list is never a prefix. -/
theorem append_singleton_not_isPrefixOf (l : List Char) (c : Char) :
    (l ++ [c]).isPrefixOf l = false := by
  induction l with
  | nil => rfl
  | cons x xs ih => simp [List.isPrefixOf, ih]

/-- Decomposition of an area path equal to the project name (the project
name being non-empty and backslash-free) yields the project name itself,
not `null`. -/
theorem extract_on_project_alone (proj : String) (h1 : proj ≠ "")
    (h2 : '\\' ∉ proj.data) :
    extractTeamNameFromAreaPath proj proj = some proj := by
  obtain ⟨pd⟩ := proj
  have hdata : pd ≠ [] := by
    intro hd
    exact h1 (by simp_all)
  unfold extractTeamNameFromAreaPath
  simp only [append_singleton_not_isPrefixOf, Bool.false_eq_true, if_false]
  rw [splitOnChar_no_sep '\\' pd h2 hdata]
  simp [hdata]

/-- Counterexample to C2: for a work item with no `System.TeamId` whose
`System.AreaPath` equals the project name alone, decomposition yields the
project name itself (not `null`), and the access decision is an allow-list
membership decision on that name — a mismatch denial when the project name
is not listed, and even ALLOW when it is — not an indeterminate-affiliation
denial. -/
theorem C2_project_alone_counterexample :
    extractTeamNameFromAreaPath "ProjX" "ProjX" = some "ProjX" ∧
    (validateWorkItemTeamAccess ⟨some "Alpha"⟩ ⟨fun _ => [], fun _ => none⟩
        [] "ProjX" ⟨7, none, some "ProjX"⟩).res
      = .error (VError.accessDeniedForItem 7 "ProjX" ["Alpha"]) ∧
    (validateWorkItemTeamAccess ⟨some "ProjX"⟩ ⟨fun _ => [], fun _ => none⟩
        [] "ProjX" ⟨7, none, some "ProjX"⟩).res = .ok () := by
  refine ⟨by decide, by decide, by decide⟩

/-- C2 amended: for a work item with no `System.TeamId` whose
`System.AreaPath` equals the (non-empty, backslash-free) project name alone,
area-path decomposition yields the project name itself as the candidate team
name, and the decision is the ordinary allow-list membership decision on
that name: a mismatch DENY naming the project name when it is not on the
allow-list, ALLOW when it is — never the indeterminate-affiliation denial. -/
theorem C2_project_alone_amended (env : Env) (cache : TeamCache)
    (s proj : String) (itemId : Nat) (l : List String)
    (hcfg : parseAllowedTeamBoards (some s) = some l) (hl : l ≠ [])
    (hp1 : proj ≠ "") (hp2 : '\\' ∉ proj.data) :
    (validateWorkItemTeamAccess ⟨some s⟩ env cache proj
        ⟨itemId, none, some proj⟩).res
      = (if isTeamAllowed (some l) proj then .ok ()
         else .error (.accessDeniedForItem itemId proj l)) := by
  have hext := extract_on_project_alone proj hp1 hp2
  unfold validateWorkItemTeamAccess
  rw [hcfg]
  simp only [list_isEmpty_false_of_ne_nil hl, Bool.false_eq_true, if_false]
  unfold resolveWorkItemTeamName
  simp [getWorkItemTeamId, getWorkItemAreaPath, hp1, hext]
  split <;> simp

/-- Witness for the amended C2 at a concrete input: project `"ProjX"`,
allow-list `"Alpha"`, item area path `"ProjX"`: the decision is the
mismatch denial carrying `"ProjX"`. -/
theorem C2_project_alone_amended_witness :
    (parseAllowedTeamBoards (some "Alpha") = some ["Alpha"] ∧
      (["Alpha"] : List String) ≠ [] ∧ "ProjX" ≠ "" ∧
      '\\' ∉ "ProjX".data) ∧
    (validateWorkItemTeamAccess ⟨some "Alpha"⟩ ⟨fun _ => [], fun _ => none⟩
        [] "ProjX" ⟨7, none, some "ProjX"⟩).res
      = (if isTeamAllowed (some ["Alpha"]) "ProjX" then .ok ()
         else .error (.accessDeniedForItem 7 "ProjX" ["Alpha"])) :=
  ⟨⟨by decide, by decide, by decide, by decide⟩,
    C2_project_alone_amended ⟨fun _ => [], fun _ => none⟩ [] "Alpha" "ProjX" 7
      ["Alpha"] (by decide) (by decide) (by decide) (by decide)⟩

/-! ## C3: explicit area paths bypass the allow-list on create and update -/

/-- C3: with a non-empty allow-list configured, a create request supplying
an explicit (non-empty) area path reaches the underlying create call with
exactly that path, for every path, with no team check on it; and an update
request is validated solely through `fetchAndValidateWorkItem` on the item's
current team, the requested new area path being passed to the underlying
update call unchanged and unchecked whatever team it names. -/
theorem C3_explicit_area_path_unchecked (env : Env) (dp : String)
    (cache : TeamCache) (s : String) (l : List String)
    (hcfg : parseAllowedTeamBoards (some s) = some l) (hl : l ≠ []) :
    (∀ pidOpt p, p ≠ "" →
      handleWorkItemsRequest env dp (.create pidOpt (some p))
          (some ⟨some s⟩) cache
        = ⟨.ok .created, cache,
            [Action.createWorkItem (pidOpt.getD dp) (some p)]⟩) ∧
    (∀ workItemId a,
      handleWorkItemsRequest env dp (.update workItemId a)
          (some ⟨some s⟩) cache
        = (match (fetchAndValidateWorkItem ⟨some s⟩ env cache dp
              workItemId).res with
           | .error e =>
             ⟨.error e,
               (fetchAndValidateWorkItem ⟨some s⟩ env cache dp workItemId).cache,
               (fetchAndValidateWorkItem ⟨some s⟩ env cache dp workItemId).log⟩
           | .ok _ =>
             ⟨.ok .updated,
               (fetchAndValidateWorkItem ⟨some s⟩ env cache dp workItemId).cache,
               (fetchAndValidateWorkItem ⟨some s⟩ env cache dp workItemId).log
                 ++ [Action.updateWorkItem workItemId a]⟩)) := by
  have hv0 := validateTeamBoardAccess_none_ok ⟨some s⟩ env cache dp l hcfg hl
  constructor
  · intro pidOpt p hp
    simp [handleWorkItemsRequest, hv0, handleSwitch, truthyOpt, hp]
  · intro workItemId a
    simp only [handleWorkItemsRequest, hv0, handleSwitch]
    cases h : (fetchAndValidateWorkItem ⟨some s⟩ env cache dp workItemId).res
      <;> simp [h]

/-- Concrete environment for the router witnesses: one allowed team
`Alpha`, every work item sitting in `Alpha`'s area. -/
def envAlpha : Env :=
  ⟨fun _ => [⟨"i1", "Alpha"⟩], fun n => some ⟨n, none, some "X\\Alpha"⟩⟩

/-- Witness for C3: with allow-list `"Alpha"`, creation with the explicit
area path `"X\\Evil"` (a team not on the allow-list) proceeds to the
underlying create call, and an update of an item in `Alpha`'s area passes
the new path `"X\\Evil"` through to the underlying update call. -/
theorem C3_explicit_area_path_unchecked_witness :
    (parseAllowedTeamBoards (some "Alpha") = some ["Alpha"] ∧
      (["Alpha"] : List String) ≠ [] ∧ "X\\Evil" ≠ "") ∧
    handleWorkItemsRequest envAlpha "X" (.create none (some "X\\Evil"))
        (some ⟨some "Alpha"⟩) []
      = ⟨.ok .created, [], [Action.createWorkItem "X" (some "X\\Evil")]⟩ :=
  ⟨⟨by decide, by decide, by decide⟩,
    (C3_explicit_area_path_unchecked envAlpha "X" [] "Alpha" ["Alpha"]
      (by decide) (by decide)).1 none "X\\Evil" (by decide)⟩

/-! ## C9: area-path defaulting and ambiguity rejection on create -/

/-- C9: for a create request with no explicit area path under a configured
allow-list, exactly one allowed team auto-fills the area path to
`<project>\\<team>` before the create call, while two or more allowed teams
fail with the ambiguous-creation error and never reach the create call. -/
theorem C9_create_defaulting_and_ambiguity (env : Env) (dp : String)
    (cache : TeamCache) (s : String) (l : List String)
    (hcfg : parseAllowedTeamBoards (some s) = some l) :
    (∀ t₀, l = [t₀] → ∀ pidOpt,
      handleWorkItemsRequest env dp (.create pidOpt none)
          (some ⟨some s⟩) cache
        = ⟨.ok .created, cache,
            [Action.createWorkItem (pidOpt.getD dp)
              (some (pidOpt.getD dp ++ "\\" ++ t₀))]⟩) ∧
    (∀ t₁ t₂ rest, l = t₁ :: t₂ :: rest → ∀ pidOpt,
      handleWorkItemsRequest env dp (.create pidOpt none)
          (some ⟨some s⟩) cache
        = ⟨.error (.ambiguousCreation l), cache, []⟩) := by
  constructor
  · intro t₀ hlt pidOpt
    subst hlt
    have hv0 := validateTeamBoardAccess_none_ok ⟨some s⟩ env cache dp [t₀]
      hcfg (by simp)
    simp [handleWorkItemsRequest, hv0, handleSwitch, truthyOpt, hcfg]
  · intro t₁ t₂ rest hlt pidOpt
    subst hlt
    have hv0 := validateTeamBoardAccess_none_ok ⟨some s⟩ env cache dp
      (t₁ :: t₂ :: rest) hcfg (by simp)
    simp [handleWorkItemsRequest, hv0, handleSwitch, truthyOpt, hcfg]

/-- Witness for C9: allow-list `"Alpha"` auto-fills the area path to
`"X\\Alpha"`; allow-list `"Alpha,Beta"` fails with the ambiguous-creation
error with no create call. -/
theorem C9_create_defaulting_and_ambiguity_witness :
    parseAllowedTeamBoards (some "Alpha") = some ["Alpha"] ∧
    handleWorkItemsRequest envAlpha "X" (.create none none)
        (some ⟨some "Alpha"⟩) []
      = ⟨.ok .created, [], [Action.createWorkItem "X" (some "X\\Alpha")]⟩ ∧
    handleWorkItemsRequest envAlpha "X" (.create none none)
        (some ⟨some "Alpha,Beta"⟩) []
      = ⟨.error (.ambiguousCreation ["Alpha", "Beta"]), [], []⟩ :=
  ⟨by decide,
    (C9_create_defaulting_and_ambiguity envAlpha "X" [] "Alpha" ["Alpha"]
      (by decide)).1 "Alpha" rfl none,
    (C9_create_defaulting_and_ambiguity envAlpha "X" [] "Alpha,Beta"
      ["Alpha", "Beta"] (by decide)).2 "Alpha" "Beta" [] rfl none⟩

/-! ## C4: link operations validate both endpoints before mutating -/

theorem mem_getTeamNameById_log (env : Env) (cache : TeamCache)
    (pid tid : String) (a : Action)
    (h : a ∈ (getTeamNameById env cache pid tid).log) :
    a = Action.fetchTeams pid := by
  revert h
  unfold getTeamNameById
  split
  · simp
  · dsimp only
    split
    · split
      · intro h; simpa using h
      · intro h; simpa using h
    · intro h; simpa using h

theorem mem_resolveWorkItemTeamName_log (env : Env) (cache : TeamCache)
    (pid : String) (w : WorkItem) (a : Action)
    (h : a ∈ (resolveWorkItemTeamName env cache pid w).2.2) :
    a = Action.fetchTeams pid := by
  revert h
  unfold resolveWorkItemTeamName
  split
  · dsimp only
    split
    · exact mem_getTeamNameById_log env cache pid _ a
    · exact mem_getTeamNameById_log env cache pid _ a
  · split
    · simp
    · split
      · simp
      · simp

theorem mem_validateWorkItemTeamAccess_log (cfg : Config) (env : Env)
    (cache : TeamCache) (pid : String) (w : WorkItem) (a : Action)
    (h : a ∈ (validateWorkItemTeamAccess cfg env cache pid w).log) :
    a = Action.fetchTeams pid := by
  revert h
  unfold validateWorkItemTeamAccess
  split
  · simp
  · split
    · simp
    · split
      · rename_i heq
        intro h
        exact mem_resolveWorkItemTeamName_log env cache pid w a (by rw [heq]; exact h)
      · rename_i heq
        split
        · intro h
          exact mem_resolveWorkItemTeamName_log env cache pid w a (by rw [heq]; exact h)
        · intro h
          exact mem_resolveWorkItemTeamName_log env cache pid w a (by rw [heq]; exact h)

theorem fetchAndValidateWorkItem_log (cfg : Config) (env : Env)
    (cache : TeamCache) (pid : String) (workItemId : Nat) :
    ∃ tl, (fetchAndValidateWorkItem cfg env cache pid workItemId).log
        = Action.getWorkItem workItemId :: tl ∧
      ∀ a ∈ tl, a = Action.fetchTeams pid := by
  unfold fetchAndValidateWorkItem
  split
  · exact ⟨[], rfl, by simp⟩
  · rename_i w hw
    dsimp only
    split
    · exact ⟨(validateWorkItemTeamAccess cfg env cache pid w).log, rfl,
        fun a ha => mem_validateWorkItemTeamAccess_log cfg env cache pid w a ha⟩
    · exact ⟨(validateWorkItemTeamAccess cfg env cache pid w).log, rfl,
        fun a ha => mem_validateWorkItemTeamAccess_log cfg env cache pid w a ha⟩

theorem fetchAndValidateWorkItem_log_no_mutation (cfg : Config) (env : Env)
    (cache : TeamCache) (pid : String) (workItemId : Nat) (a : Action)
    (h : a ∈ (fetchAndValidateWorkItem cfg env cache pid workItemId).log) :
    a.isMutation = false := by
  obtain ⟨tl, hlog, htl⟩ := fetchAndValidateWorkItem_log cfg env cache pid workItemId
  rw [hlog] at h
  rcases List.mem_cons.mp h with h | h
  · subst h; rfl
  · rw [htl a h]; rfl

theorem fetchAndValidateWorkItem_log_head (cfg : Config) (env : Env)
    (cache : TeamCache) (pid : String) (workItemId : Nat) :
    Action.getWorkItem workItemId
      ∈ (fetchAndValidateWorkItem cfg env cache pid workItemId).log := by
  obtain ⟨tl, hlog, _⟩ := fetchAndValidateWorkItem_log cfg env cache pid workItemId
  rw [hlog]
  exact List.mem_cons_self _ _

/-- C4: for every link request under a present configuration, a successful
run logs the fetch of both endpoints strictly before the single terminal
link mutation, and whenever any stage of the validation fails the run logs
no mutating call at all (in particular the link call is never reached). -/
theorem C4_link_both_endpoints_validated_first (env : Env) (dp : String)
    (cache : TeamCache) (cfg : Config) (pidOpt : Option String)
    (src tgt : Nat) :
    (∀ x, (handleWorkItemsRequest env dp (.link pidOpt src tgt)
          (some cfg) cache).res = .ok x →
      ∃ L, (handleWorkItemsRequest env dp (.link pidOpt src tgt)
            (some cfg) cache).log = L ++ [Action.linkWorkItems src tgt] ∧
        Action.getWorkItem src ∈ L ∧ Action.getWorkItem tgt ∈ L ∧
        ∀ a ∈ L, a.isMutation = false) ∧
    (∀ e, (handleWorkItemsRequest env dp (.link pidOpt src tgt)
          (some cfg) cache).res = .error e →
      ∀ a ∈ (handleWorkItemsRequest env dp (.link pidOpt src tgt)
          (some cfg) cache).log, a.isMutation = false) := by
  rcases hP : parseAllowedTeamBoards cfg.allowedTeamBoards with _ | l
  · have hv := validateTeamBoardAccess_none_denied cfg env cache dp none (Or.inl hP)
    constructor
    · intro x hx
      simp [handleWorkItemsRequest, hv] at hx
    · intro e _ a ha
      simp [handleWorkItemsRequest, hv] at ha
  · cases l with
    | nil =>
      have hv := validateTeamBoardAccess_none_denied cfg env cache dp none (Or.inr hP)
      constructor
      · intro x hx
        simp [handleWorkItemsRequest, hv] at hx
      · intro e _ a ha
        simp [handleWorkItemsRequest, hv] at ha
    | cons l₀ ls =>
      have hv := validateTeamBoardAccess_none_ok cfg env cache dp (l₀ :: ls) hP (by simp)
      simp only [handleWorkItemsRequest, hv, handleSwitch]
      set pid := pidOpt.getD dp with hpid
      cases h1 : (fetchAndValidateWorkItem cfg env cache pid src).res with
      | error e₁ =>
        constructor
        · intro x hx
          simp [h1] at hx
        · intro e he a ha
          simp [h1] at ha
          exact fetchAndValidateWorkItem_log_no_mutation cfg env cache pid src a ha
      | ok w₁ =>
        cases h2 : (fetchAndValidateWorkItem cfg env
            (fetchAndValidateWorkItem cfg env cache pid src).cache pid tgt).res with
        | error e₂ =>
          constructor
          · intro x hx
            simp [h1, h2] at hx
          · intro e he a ha
            simp [h1, h2] at ha
            rcases ha with ha | ha
            · exact fetchAndValidateWorkItem_log_no_mutation cfg env cache pid src a ha
            · exact fetchAndValidateWorkItem_log_no_mutation cfg env _ pid tgt a ha
        | ok w₂ =>
          constructor
          · intro x _
            refine ⟨(fetchAndValidateWorkItem cfg env cache pid src).log
                ++ (fetchAndValidateWorkItem cfg env
                  (fetchAndValidateWorkItem cfg env cache pid src).cache pid tgt).log,
              ?_, ?_, ?_, ?_⟩
            · simp [h1, h2]
            · exact List.mem_append_left _
                (fetchAndValidateWorkItem_log_head cfg env cache pid src)
            · exact List.mem_append_right _
                (fetchAndValidateWorkItem_log_head cfg env _ pid tgt)
            · intro a ha
              rcases List.mem_append.mp ha with ha | ha
              · exact fetchAndValidateWorkItem_log_no_mutation cfg env cache pid src a ha
              · exact fetchAndValidateWorkItem_log_no_mutation cfg env _ pid tgt a ha
          · intro e he
            simp [h1, h2] at he

/-- Witness for C4: a link of two items in the allowed team `Alpha`
succeeds, both endpoint fetches preceding the terminal link call. -/
theorem C4_link_both_endpoints_validated_first_witness :
    (handleWorkItemsRequest envAlpha "X" (.link none 1 2)
        (some ⟨some "Alpha"⟩) []).res = .ok .linked ∧
    ∃ L, (handleWorkItemsRequest envAlpha "X" (.link none 1 2)
          (some ⟨some "Alpha"⟩) []).log = L ++ [Action.linkWorkItems 1 2] ∧
      Action.getWorkItem 1 ∈ L ∧ Action.getWorkItem 2 ∈ L ∧
      ∀ a ∈ L, a.isMutation = false :=
  ⟨by decide,
    (C4_link_both_endpoints_validated_first envAlpha "X" [] ⟨some "Alpha"⟩
      none 1 2).1 .linked (by decide)⟩

/-! ## C5: what a cache miss repopulates -/

/-- Counterexample to C5: on a cache miss, `getTeamNameById` fetches the
full team list (here teams `A` and `B`) but the repopulated cache entry for
the project holds only the looked-up team `A`; team `B`, though fetched,
gets no entry — the claimed repopulation of the full entry does not
happen. -/
theorem C5_full_repopulation_counterexample :
    (getTeamNameById ⟨fun _ => [⟨"1", "A"⟩, ⟨"2", "B"⟩], fun _ => none⟩
        [] "P" "1").name = some "A" ∧
    (getTeamNameById ⟨fun _ => [⟨"1", "A"⟩, ⟨"2", "B"⟩], fun _ => none⟩
        [] "P" "1").log = [Action.fetchTeams "P"] ∧
    Team.mk "2" "B" ∈
      (⟨fun _ => [⟨"1", "A"⟩, ⟨"2", "B"⟩], fun _ => none⟩ : Env).teams "P" ∧
    (getTeamNameById ⟨fun _ => [⟨"1", "A"⟩, ⟨"2", "B"⟩], fun _ => none⟩
        [] "P" "1").cache = [("P", [("a", "1")])] ∧
    recordGet ((recordGet (getTeamNameById
        ⟨fun _ => [⟨"1", "A"⟩, ⟨"2", "B"⟩], fun _ => none⟩
        [] "P" "1").cache "P").getD []) "b" = none := by
  refine ⟨by decide, by decide, by decide, by decide, by decide⟩

/-- C5 amended: on a cache miss the resolver does fetch the full team list
for the project, but it repopulates only the single looked-up team's
mapping in the project's cache entry (when the ID is found on a team with
non-empty name and id); the other fetched teams are not cached, and when
the ID is not found the cache is left unchanged. -/
theorem C5_single_team_repopulation (env : Env) (cache : TeamCache)
    (pid tid : String) (hmiss : cacheLookup cache pid tid = none) :
    (getTeamNameById env cache pid tid).log = [Action.fetchTeams pid] ∧
    ((∃ t, (env.teams pid).find? (fun t' => t'.id = tid) = some t ∧
        t.name ≠ "" ∧ t.id ≠ "" ∧
        (getTeamNameById env cache pid tid).cache
          = recordSet cache pid
              (recordSet ((recordGet cache pid).getD [])
                (lowerStr t.name) t.id)) ∨
      (getTeamNameById env cache pid tid).cache = cache) := by
  unfold getTeamNameById
  rw [hmiss]
  dsimp only
  split
  · rename_i t ht
    split
    · rename_i hval
      exact ⟨rfl, Or.inl ⟨t, ht, hval.1, hval.2, rfl⟩⟩
    · exact ⟨rfl, Or.inr rfl⟩
  · exact ⟨rfl, Or.inr rfl⟩

/-- Witness for the amended C5 at the counterexample's input. -/
theorem C5_single_team_repopulation_witness :
    cacheLookup [] "P" "1" = none ∧
    ((getTeamNameById ⟨fun _ => [⟨"1", "A"⟩, ⟨"2", "B"⟩], fun _ => none⟩
        [] "P" "1").log = [Action.fetchTeams "P"] ∧
      ((∃ t, ((⟨fun _ => [⟨"1", "A"⟩, ⟨"2", "B"⟩], fun _ => none⟩ : Env).teams
            "P").find? (fun t' => t'.id = "1") = some t ∧
          t.name ≠ "" ∧ t.id ≠ "" ∧
          (getTeamNameById ⟨fun _ => [⟨"1", "A"⟩, ⟨"2", "B"⟩], fun _ => none⟩
              [] "P" "1").cache
            = recordSet [] "P"
                (recordSet ((recordGet ([] : TeamCache) "P").getD [])
                  (lowerStr t.name) t.id)) ∨
        (getTeamNameById ⟨fun _ => [⟨"1", "A"⟩, ⟨"2", "B"⟩], fun _ => none⟩
            [] "P" "1").cache = [])) :=
  ⟨rfl, C5_single_team_repopulation
    ⟨fun _ => [⟨"1", "A"⟩, ⟨"2", "B"⟩], fun _ => none⟩ [] "P" "1" rfl⟩

/-! ## C6: cached resolution is idempotent and fetch-free -/

/-- C6: when the project's cache entry already resolves the team ID, both
the first and a repeated resolution return the identical cached name, and
neither (in particular not the second) performs a network fetch; the cache
is left untouched. -/
theorem C6_cached_resolution_idempotent (env : Env) (cache : TeamCache)
    (pid tid n : String) (h : cacheLookup cache pid tid = some n) :
    (getTeamNameById env cache pid tid).name = some n ∧
    (getTeamNameById env (getTeamNameById env cache pid tid).cache pid
        tid).name = some n ∧
    (getTeamNameById env cache pid tid).log = [] ∧
    (getTeamNameById env (getTeamNameById env cache pid tid).cache pid
        tid).log = [] ∧
    (getTeamNameById env cache pid tid).cache = cache := by
  unfold getTeamNameById
  simp [h]

/-- Witness for C6: a cache holding `alpha ↦ i1` for project `P` resolves
`i1` to `alpha` twice with no fetch. -/
theorem C6_cached_resolution_idempotent_witness :
    cacheLookup [("P", [("alpha", "i1")])] "P" "i1" = some "alpha" ∧
    ((getTeamNameById envAlpha [("P", [("alpha", "i1")])] "P" "i1").name
        = some "alpha" ∧
      (getTeamNameById envAlpha (getTeamNameById envAlpha
          [("P", [("alpha", "i1")])] "P" "i1").cache "P" "i1").name
        = some "alpha" ∧
      (getTeamNameById envAlpha [("P", [("alpha", "i1")])] "P" "i1").log
        = [] ∧
      (getTeamNameById envAlpha (getTeamNameById envAlpha
          [("P", [("alpha", "i1")])] "P" "i1").cache "P" "i1").log = [] ∧
      (getTeamNameById envAlpha [("P", [("alpha", "i1")])] "P" "i1").cache
        = [("P", [("alpha", "i1")])]) :=
  ⟨by decide,
    C6_cached_resolution_idempotent envAlpha [("P", [("alpha", "i1")])]
      "P" "i1" "alpha" (by decide)⟩

/-! ## C7: case-insensitive allow-list membership -/

theorem any_lower_congr (a b : List String) (t t' : String)
    (hab : a.map lowerStr = b.map lowerStr) (ht : lowerStr t = lowerStr t') :
    a.any (fun x => lowerStr x == lowerStr t)
      = b.any (fun x => lowerStr x == lowerStr t') := by
  induction a generalizing b with
  | nil =>
    cases b with
    | nil => rfl
    | cons y ys => simp at hab
  | cons x xs ih =>
    cases b with
    | nil => simp at hab
    | cons y ys =>
      simp only [List.map_cons, List.cons.injEq] at hab
      obtain ⟨h1, h2⟩ := hab
      rw [List.any_cons, List.any_cons, ih ys h2, h1, ht]

/-- C7: the access decision of `isTeamAllowed` is invariant under changing
only the letter case of the configured allow-list entries or of the
resolved team name — membership comparison is case-insensitive. -/
theorem C7_case_insensitive_membership (l l' : Option (List String))
    (t t' : String)
    (hl : l.map (List.map lowerStr) = l'.map (List.map lowerStr))
    (ht : lowerStr t = lowerStr t') :
    isTeamAllowed l t = isTeamAllowed l' t' := by
  cases l with
  | none =>
    cases l' with
    | none => rfl
    | some b => simp at hl
  | some a =>
    cases l' with
    | none => simp at hl
    | some b =>
      simp only [Option.map_some'] at hl
      injection hl with hl
      cases a with
      | nil =>
        cases b with
        | nil => rfl
        | cons y ys => simp at hl
      | cons x xs =>
        cases b with
        | nil => simp at hl
        | cons y ys =>
          simp only [isTeamAllowed, List.isEmpty_cons, Bool.false_eq_true,
            if_false]
          exact any_lower_congr (x :: xs) (y :: ys) t t' hl ht

/-- Witness for C7: `"Team Alpha"` matches the allow-list entry
`"team alpha"`, and re-casing the entry to `"Team Alpha"` with team name
`"team alpha"` gives the same (allowing) decision. -/
theorem C7_case_insensitive_membership_witness :
    ((some ["team alpha"] : Option (List String)).map (List.map lowerStr)
        = (some ["Team Alpha"] : Option (List String)).map
            (List.map lowerStr) ∧
      lowerStr "Team Alpha" = lowerStr "team alpha") ∧
    isTeamAllowed (some ["team alpha"]) "Team Alpha"
      = isTeamAllowed (some ["Team Alpha"]) "team alpha" ∧
    isTeamAllowed (some ["team alpha"]) "Team Alpha" = true :=
  ⟨⟨by decide, by decide⟩,
    C7_case_insensitive_membership (some ["team alpha"])
      (some ["Team Alpha"]) "Team Alpha" "team alpha" (by decide) (by decide),
    by decide⟩

/-! ## C10: batch validation of allowed team names -/

theorem resolveNamesAcc_snd (tm : List (String × String))
    (acc : List (String × String)) (nf : List String) (names : List String) :
    (resolveNamesAcc tm acc nf names).2
      = nf ++ names.filter (fun n => (recordGet tm (lowerStr n)).isNone) := by
  induction names generalizing acc nf with
  | nil => simp [resolveNamesAcc]
  | cons n rest ih =>
    unfold resolveNamesAcc
    cases h : recordGet tm (lowerStr n) with
    | some id => simp [h, ih, List.filter_cons]
    | none => simp [h, ih, List.filter_cons]

theorem resolveNamesAcc_preserves (tm : List (String × String))
    (acc : List (String × String)) (nf : List String) (names : List String)
    (n : String) (h : (recordGet acc n).isSome = true) :
    (recordGet (resolveNamesAcc tm acc nf names).1 n).isSome = true := by
  induction names generalizing acc nf with
  | nil => simpa [resolveNamesAcc] using h
  | cons m rest ih =>
    unfold resolveNamesAcc
    cases hm : recordGet tm (lowerStr m) with
    | some id => exact ih _ _ (recordGet_recordSet_isSome acc m n id h)
    | none => exact ih _ _ h

theorem resolveNamesAcc_covers (tm : List (String × String))
    (acc : List (String × String)) (nf : List String) (names : List String) :
    ∀ n ∈ names, (recordGet tm (lowerStr n)).isSome = true →
      (recordGet (resolveNamesAcc tm acc nf names).1 n).isSome = true := by
  induction names generalizing acc nf with
  | nil =>
    intro n hn
    cases hn
  | cons m rest ih =>
    intro n hn hs
    rcases List.mem_cons.mp hn with hn | hn
    · subst hn
      unfold resolveNamesAcc
      cases hm : recordGet tm (lowerStr n) with
      | some id =>
        exact resolveNamesAcc_preserves tm _ nf rest n
          (by simp [recordGet_recordSet_self])
      | none =>
        rw [hm] at hs
        cases hs
    · unfold resolveNamesAcc
      cases hm : recordGet tm (lowerStr m) with
      | some id => exact ih _ _ n hn hs
      | none => exact ih _ _ n hn hs

/-- C10: resolving the allowed team names is a batch validation: when some
requested names have no (case-insensitive) match in the project's team
list, the call fails with one error enumerating exactly the unmatched
names, in request order, together with the names of all teams that do
exist; when all match, it returns a mapping with an entry for every
requested name. -/
theorem C10_batch_name_validation (env : Env) (cache : TeamCache)
    (pid : String) (names : List String) :
    (names.filter (fun n =>
        (recordGet (buildTeamMap (env.teams pid)) (lowerStr n)).isNone)
          ≠ [] →
      (getAllowedTeamIds env cache pid names).res
        = .error (.teamsNotFound pid
            (names.filter (fun n =>
              (recordGet (buildTeamMap (env.teams pid)) (lowerStr n)).isNone))
            ((env.teams pid).map displayName))) ∧
    (names.filter (fun n =>
        (recordGet (buildTeamMap (env.teams pid)) (lowerStr n)).isNone)
          = [] →
      ∃ m, (getAllowedTeamIds env cache pid names).res = .ok m ∧
        ∀ n ∈ names, (recordGet m n).isSome = true) := by
  have hsnd := resolveNamesAcc_snd (buildTeamMap (env.teams pid)) [] [] names
  rw [List.nil_append] at hsnd
  constructor
  · intro hne
    unfold getAllowedTeamIds
    simp only [hsnd, list_isEmpty_false_of_ne_nil hne, Bool.false_eq_true,
      if_false]
  · intro hnil
    unfold getAllowedTeamIds
    simp only [hsnd, hnil, List.isEmpty_nil, if_true]
    refine ⟨(resolveNamesAcc (buildTeamMap (env.teams pid)) [] [] names).1,
      rfl, ?_⟩
    intro n hn
    have hmem : (recordGet (buildTeamMap (env.teams pid)) (lowerStr n)).isSome
        = true := by
      have := (List.filter_eq_nil_iff.mp hnil) n hn
      cases hv : recordGet (buildTeamMap (env.teams pid)) (lowerStr n) with
      | none => rw [hv] at this; simp at this
      | some v => rfl
    exact resolveNamesAcc_covers (buildTeamMap (env.teams pid)) [] [] names
      n hn hmem

/-- Witness for C10: with one existing team `Alpha` and requested names
`["Alpha", "Gamma"]`, the call fails with the single error naming the
unmatched `"Gamma"` and the existing team `"Alpha"`. -/
theorem C10_batch_name_validation_witness :
    (["Alpha", "Gamma"].filter (fun n =>
        (recordGet (buildTeamMap (envAlpha.teams "P")) (lowerStr n)).isNone)
      = ["Gamma"]) ∧
    (getAllowedTeamIds envAlpha [] "P" ["Alpha", "Gamma"]).res
      = .error (.teamsNotFound "P" ["Gamma"] ["Alpha"]) := by
  refine ⟨by decide, ?_⟩
  have h := (C10_batch_name_validation envAlpha [] "P" ["Alpha", "Gamma"]).1
    (by decide)
  rw [h]
  rfl

/-! ## C8: the scoped listing query -/

/-- C8: for a listing without an explicit team under allow-list
`"Alpha,Beta"`, with both teams resolvable in project `X`, the router runs
one team fetch and then the listing with a WIQL filter equal to: project
`X` AND (area path under `X\Alpha` OR area path under `X\Beta`) — one
clause per allowed team, combined by OR, in the allowed-team mapping's
stable iteration order (`Alpha` then `Beta`). -/
theorem C8_scoped_listing_query (env : Env) (cache : TeamCache)
    (dp idA idB : String)
    (hA : recordGet (buildTeamMap (env.teams "X")) "alpha" = some idA)
    (hB : recordGet (buildTeamMap (env.teams "X")) "beta" = some idB) :
    (handleWorkItemsRequest env dp (.list (some "X") none none)
        (some ⟨some "Alpha,Beta"⟩) cache).res = .ok .items ∧
    (handleWorkItemsRequest env dp (.list (some "X") none none)
        (some ⟨some "Alpha,Beta"⟩) cache).log
      = [Action.fetchTeams "X",
         Action.listWorkItems "X" none (some (scopedWiql "X"
           [areaPathCondition "X" "Alpha", areaPathCondition "X" "Beta"]))] ∧
    scopedWiql "X"
        [areaPathCondition "X" "Alpha", areaPathCondition "X" "Beta"]
      = "SELECT [System.Id] FROM WorkItems WHERE [System.TeamProject] = \x27X\x27 AND ([System.AreaPath] UNDER \x27X\\Alpha\x27 OR [System.AreaPath] UNDER \x27X\\Beta\x27) ORDER BY [System.Id]" := by
  have hparse : parseAllowedTeamBoards (some "Alpha,Beta")
      = some ["Alpha", "Beta"] := by decide
  have hv0 := validateTeamBoardAccess_none_ok ⟨some "Alpha,Beta"⟩ env cache dp
    ["Alpha", "Beta"] hparse (by simp)
  have hset : recordSet [("Alpha", idA)] "Beta" idB
      = [("Alpha", idA), ("Beta", idB)] := by
    simp [recordSet]
  have hres : resolveNamesAcc (buildTeamMap (env.teams "X")) [] []
      ["Alpha", "Beta"] = ([("Alpha", idA), ("Beta", idB)], []) := by
    have hla : lowerStr "Alpha" = "alpha" := by decide
    have hlb : lowerStr "Beta" = "beta" := by decide
    unfold resolveNamesAcc
    rw [hla, hA]
    unfold resolveNamesAcc
    rw [hlb, hB]
    unfold resolveNamesAcc
    simp [recordSet, hset]
  have hteams : getAllowedTeamIds env cache "X" ["Alpha", "Beta"]
      = ⟨.ok [("Alpha", idA), ("Beta", idB)],
          cacheAddTeams cache "X" (env.teams "X"),
          [Action.fetchTeams "X"]⟩ := by
    unfold getAllowedTeamIds
    simp [hres]
  refine ⟨?_, ?_, by decide⟩
  · simp [handleWorkItemsRequest, hv0, handleSwitch, hparse, truthyOpt,
      hteams]
  · simp [handleWorkItemsRequest, hv0, handleSwitch, hparse, truthyOpt,
      hteams]

/-- Environment for the C8 witness: project `X` has exactly the teams
`Alpha` and `Beta`. -/
def envAlphaBeta : Env :=
  ⟨fun _ => [⟨"i1", "Alpha"⟩, ⟨"i2", "Beta"⟩], fun _ => none⟩

/-- Witness for C8 with both teams concretely resolvable. -/
theorem C8_scoped_listing_query_witness :
    (recordGet (buildTeamMap (envAlphaBeta.teams "X")) "alpha" = some "i1" ∧
      recordGet (buildTeamMap (envAlphaBeta.teams "X")) "beta" = some "i2") ∧
    ((handleWorkItemsRequest envAlphaBeta "X" (.list (some "X") none none)
        (some ⟨some "Alpha,Beta"⟩) []).res = .ok .items ∧
      (handleWorkItemsRequest envAlphaBeta "X" (.list (some "X") none none)
          (some ⟨some "Alpha,Beta"⟩) []).log
        = [Action.fetchTeams "X",
           Action.listWorkItems "X" none (some (scopedWiql "X"
             [areaPathCondition "X" "Alpha", areaPathCondition "X" "Beta"]))] ∧
      scopedWiql "X"
          [areaPathCondition "X" "Alpha", areaPathCondition "X" "Beta"]
        = "SELECT [System.Id] FROM WorkItems WHERE [System.TeamProject] = \x27X\x27 AND ([System.AreaPath] UNDER \x27X\\Alpha\x27 OR [System.AreaPath] UNDER \x27X\\Beta\x27) ORDER BY [System.Id]") :=
  ⟨⟨by decide, by decide⟩,
    C8_scoped_listing_query envAlphaBeta [] "X" "i1" "i2"
      (by decide) (by decide)⟩

end AdoMcp
